import Mathlib

/-!
Verification development for the `node-uci-protocol` repository.

The TypeScript sources are shallowly embedded:
* `src/lib/Parser/Parser.ts`     — the parser core (`Parser<T>`, `alt`, `many`, ...);
* `src/lib/Parser/Combinator.ts` — combinators (`choice`, `sepBy`, `manyTill`, ...);
* `src/lib/Parser/index.ts`      — string-level primitives (`satisfy`, `str`, ...);
* `src/lib/UCI/Types.ts`         — the tagged-union command/response model;
* `src/lib/UCI/Parser.ts`        — the UCI command grammar;
* `src/lib/UCI/index.ts`         — response tokenization/serialization and the
  dispatcher `protocolHandler`;
* `examples` adapter (`UCIProxyHandler`)  — the search/abort state machine.

A JavaScript string is modelled as `List Char` on the input side (ASCII
protocol text, so UTF-16 code units coincide with characters).  JavaScript
numbers are modelled as `ℚ`; the protocol only produces exact decimal
values, and `-0` collapses to `0`, which matches JS number-to-string
conversion (`String(-0) = "0"`).  `E.Either<string, [T, string]>` becomes
`Except String (α × List Char)`.

The source's `many`, `manyTill` and `skipGarbage` recurse on the input; the
embedding passes explicit fuel bounded by the input length.  Whenever the
element parser consumes at least one character per step — true at every use
site in the grammar — the fuel is never exhausted and the embedding computes
exactly the source's result (the source diverges in the remaining cases, so
no terminating behavior is altered).
-/

namespace NodeUCI

/-! ### Parser core — `src/lib/Parser/Parser.ts` -/

abbrev ParseError := String

/-- `Parser<T> = (x: string) => E.Either<ParseError, [T, string]>`. -/
abbrev Parser (α : Type) := List Char → Except ParseError (α × List Char)

/-- `_of` (Parser.ts): succeed without consuming. -/
def pOf {α : Type} (a : α) : Parser α := fun x => .ok (a, x)

/-- `_map` (Parser.ts). -/
def pMap {α β : Type} (f : α → β) (p : Parser α) : Parser β := fun x =>
  match p x with
  | .ok (a, rest) => .ok (f a, rest)
  | .error e => .error e

/-- `_chain` (Parser.ts): monadic bind, short-circuiting on failure. -/
def pBind {α β : Type} (p : Parser α) (f : α → Parser β) : Parser β := fun x =>
  match p x with
  | .ok (a, rest) => f a rest
  | .error e => .error e

/-- `_alt` (Parser.ts): try `fa`; on failure run the lazily-supplied
alternative on the same input (the alternative's error is kept). -/
def pAlt {α : Type} (fa : Parser α) (that : Unit → Parser α) : Parser α := fun x =>
  match fa x with
  | .ok r => .ok r
  | .error _ => that () x

/-- `_zero` (Parser.ts): always fails with `"zero"`. -/
def pZero {α : Type} : Parser α := fun _ => .error "zero"

/-- Whether a result is a failure (`E.isLeft`). -/
def failed {ε α : Type} (r : Except ε α) : Bool :=
  match r with
  | .error _ => true
  | .ok _ => false

/-- Loop body of `many` (Parser.ts): `while (!E.isLeft(e) && rest.length > 0)
{ push a; rest = next; e = p(rest) }`.  The fuel argument only bounds the
number of iterations; with the initial fuel `rest.length` it is never
exhausted when `p` consumes at least one character per iteration. -/
def manyLoop {α : Type} (p : Parser α) :
    Nat → List α → List Char → Except ParseError (α × List Char) → List α × List Char
  | _, as, rest, .error _ => (as, rest)
  | fuel, as, rest, .ok (a, next) =>
    match rest with
    | [] => (as, rest)
    | _ :: _ =>
      match fuel with
      | 0 => (as, rest)
      | fuel' + 1 => manyLoop p fuel' (as ++ [a]) next (p next)

/-- `many` (Parser.ts): greedy zero-or-more repetition; always succeeds. -/
def many {α : Type} (p : Parser α) : Parser (List α) := fun x =>
  .ok (manyLoop p x.length [] x (p x))

/-! ### Combinators — `src/lib/Parser/Combinator.ts` -/

/-- `many1`: one-or-more repetition (`p` then `many p`). -/
def many1 {α : Type} (p : Parser α) : Parser (List α) := fun x =>
  match p x with
  | .error e => .error e
  | .ok (h, rest) =>
    match many p rest with
    | .ok (t, rest2) => .ok (h :: t, rest2)
    | .error e => .error e

/-- `choice(...ps)`: `ps.reduceRight((a, b) => alt(a, () => b), zero())`.
JavaScript's `reduceRight` passes the accumulator first, so the built parser
is `alt(alt(...alt(zero, pn)..., p2), p1)`: alternatives are attempted from
the LAST listed to the first. -/
def choice {α : Type} (ps : List (Parser α)) : Parser α :=
  ps.foldr (fun b a => pAlt a (fun _ => b)) pZero

/-- `sepBy1(p, sep)`: `p` then `many (sep *> p)`. -/
def sepBy1 {α β : Type} (p : Parser α) (sep : Parser β) : Parser (List α) :=
  pBind p fun x => pMap (fun xs => x :: xs) (many (pBind sep (fun _ => p)))

/-- `sepBy(p, sep)`: `alt(sepBy1(p, sep), () => of([]))`. -/
def sepBy {α β : Type} (p : Parser α) (sep : Parser β) : Parser (List α) :=
  pAlt (sepBy1 p sep) (fun _ => pOf [])

/-- `option(a, p)`: `alt(p, () => of(a))`. -/
def option {α : Type} (a : α) (p : Parser α) : Parser α :=
  pAlt p (fun _ => pOf a)

/-- Model of `Array.join("")` used by `flat`. -/
def joinAll : List String → String
  | [] => ""
  | s :: rest => s ++ joinAll rest

/-- `flat(p)`: join the parsed string pieces with `""`. -/
def flat (p : Parser (List String)) : Parser String := pMap joinAll p

/-- Fuel-indexed body of `manyTill`: `scan = alt(end.map(() => []),
() => p.bind(x => scan.map(xs => [x, ...xs])))`. -/
def manyTillFuel {α β : Type} (endp : Parser β) (p : Parser α) : Nat → Parser (List α)
  | 0 => pZero
  | fuel + 1 =>
    pAlt (pMap (fun _ => ([] : List α)) endp)
      (fun _ => pBind p (fun x => pMap (fun xs => x :: xs) (manyTillFuel endp p fuel)))

/-- `manyTill(end)(p)`: repeat `p` until `end` succeeds, consuming `end`. -/
def manyTill {α β : Type} (endp : Parser β) (p : Parser α) : Parser (List α) := fun s =>
  manyTillFuel endp p (s.length + 1) s

/-- `lookahead(p)`: run `p` but restore the input on success. -/
def lookahead {α : Type} (p : Parser α) : Parser α := fun s =>
  match p s with
  | .ok (a, _) => .ok (a, s)
  | .error e => .error e

/-- `expected(msg)(p)`: wrap a failure message. -/
def expected {α : Type} (msg : String) (p : Parser α) : Parser α := fun s =>
  match p s with
  | .ok r => .ok r
  | .error e => .error ("Expected " ++ msg ++ " but: " ++ e)

/-! ### String parsers — `src/lib/Parser/index.ts` -/

/-- `of.includes(x)` for a single-character `x`. -/
def strContains (s : String) (c : Char) : Bool := s.data.contains c

/-- `satisfy(desc)(pred)`: single-character predicate match, returning the
character as a one-character string as the source does. -/
def satisfy (desc : String) (pred : Char → Bool) : Parser String := fun x =>
  match x with
  | [] => .error ("Expected " ++ desc ++ " but got EOF")
  | c :: cs =>
    if pred c then .ok (String.singleton c, cs)
    else .error ("Expected " ++ desc ++ ", but got " ++ String.singleton c)

/-- `oneOf`. -/
def oneOf (ofs : String) : Parser String :=
  satisfy ("one of " ++ ofs) (fun c => strContains ofs c)

/-- `noneOf`. -/
def noneOf (ofs : String) : Parser String :=
  satisfy ("none of " ++ ofs) (fun c => !(strContains ofs c))

/-- `char(ch)`. -/
def char (ch : Char) : Parser String :=
  satisfy ("character " ++ String.singleton ch) (fun c => c = ch)

/-- `anyChar`. -/
def anyChar : Parser String := satisfy "anything" (fun _ => true)

/-- `str(s)`: literal string match (`x.startsWith(s)`). -/
def str (s : String) : Parser String := fun x =>
  if x.take s.data.length = s.data then .ok (s, x.drop s.data.length)
  else .error ("Expected " ++ s)

/-- `whitespace = oneOf("\n\t\r ")`. -/
def whitespace : Parser String := oneOf "\n\t\r "

/-- `whitespaces = flat(many(whitespace))` — zero or more. -/
def whitespaces : Parser String := flat (many whitespace)

/-- `newline = choice(char("\n"), str("\r\n"))`. -/
def newline : Parser String := choice [char '\n', str "\r\n"]

/-- `eof`: succeeds exactly on empty input, returning `""`. -/
def eof : Parser String := fun s =>
  match s with
  | [] => .ok ("", [])
  | _ => .error "Expected EOF"

/-- `digit = oneOf("0123456789")`. -/
def digit : Parser String := oneOf "0123456789"

/-! ### Command model — `src/lib/UCI/Types.ts` -/

/-- `UCIRegister`. -/
inductive UCIRegister : Type
  | Later : UCIRegister
  | Name (name : String) : UCIRegister
  | Code (code : String) : UCIRegister
deriving DecidableEq, Repr

/-- `UCIPosition`. -/
inductive UCIPosition : Type
  | FEN (fen : String) : UCIPosition
  | StartPos : UCIPosition
deriving DecidableEq, Repr

/-- `UCIGoParameter` (numbers are JS numbers, modelled as `ℚ`). -/
inductive UCIGoParameter : Type
  | SearchMoves (moves : List String) : UCIGoParameter
  | Ponder : UCIGoParameter
  | WTime (time : ℚ) : UCIGoParameter
  | BTime (time : ℚ) : UCIGoParameter
  | WInc (time : ℚ) : UCIGoParameter
  | BInc (time : ℚ) : UCIGoParameter
  | MovesToGo (n : ℚ) : UCIGoParameter
  | Depth (depth : ℚ) : UCIGoParameter
  | Nodes (nodes : ℚ) : UCIGoParameter
  | Mate (n : ℚ) : UCIGoParameter
  | MoveTime (time : ℚ) : UCIGoParameter
  | Infinite : UCIGoParameter
deriving DecidableEq, Repr

/-- `UCIEngineCommand`.  The optional TypeScript fields `Debug.on?` and
`SetOption.value?` become `Option` fields. -/
inductive UCIEngineCommand : Type
  | UCI : UCIEngineCommand
  | Debug (on_ : Option Bool) : UCIEngineCommand
  | IsReady : UCIEngineCommand
  | SetOption (name : String) (value : Option String) : UCIEngineCommand
  | Register (register : UCIRegister) : UCIEngineCommand
  | UCINewGame : UCIEngineCommand
  | Position (position : UCIPosition) (moves : List String) : UCIEngineCommand
  | Go (params : List UCIGoParameter) : UCIEngineCommand
  | Stop : UCIEngineCommand
  | Ponderhit : UCIEngineCommand
  | Quit : UCIEngineCommand
deriving DecidableEq, Repr

/-! ### UCI command grammar — `src/lib/UCI/Parser.ts` -/

/-- `on` (named `onP` here; `on` is reserved): `str("on")` mapped to `true`. -/
def onP : Parser Bool := pMap (fun _ => true) (str "on")

/-- `off`: note that the source matches the literal `"false"`, NOT `"off"`:
`const off: P.Parser<false> = pipe(P.str("false"), P.map(always(false)))`. -/
def offP : Parser Bool := pMap (fun _ => false) (str "false")

/-- `onOff = choice(on, off)`. -/
def onOff : Parser Bool := choice [onP, offP]

/-- `word`: non-space characters up to a lookahead of whitespace or EOF. -/
def word : Parser String :=
  flat (manyTill (lookahead (choice [whitespace, eof])) (noneOf " "))

/-- Decimal value of a digit string (`+x` on the output of `many1 digit`). -/
def natValStr (s : String) : Nat :=
  s.data.foldl (fun n c => 10 * n + (c.toNat - 48)) 0

/-- `natural`: digits to a non-negative number. -/
def natural : Parser ℚ :=
  expected "natural number"
    (pMap (fun s => ((natValStr s : Nat) : ℚ)) (flat (many1 digit)))

/-- `int`: optional `+`/`-` sign (defaulting to `"+"`), then `natural`;
`sign === "+" ? int : -int`. -/
def int : Parser ℚ :=
  expected "integer"
    (pBind (option "+" (oneOf "-+")) fun sign =>
      pMap (fun n => if sign = "+" then n else -n) natural)

/-- JS number-to-string conversion for the integer-valued numbers produced
by `int`/`natural` (`String(-0) = "0"` is matched because `ℚ` has no
negative zero). -/
def jsIntToString (q : ℚ) : String :=
  if q.num < 0 then "-" ++ q.num.natAbs.repr else q.num.natAbs.repr

/-- Decimal value of a digit list. -/
def decDigitsVal (cs : List Char) : Nat :=
  cs.foldl (fun n c => 10 * n + (c.toNat - 48)) 0

/-- Model of `parseFloat` on the canonical strings `"[-]digits.digits"`
built by `floating` (exact decimal value; IEEE rounding is outside the
claims' scope). -/
def parseFloatLit (s : String) : ℚ :=
  let cs := s.data
  let neg := match cs with
    | '-' :: _ => true
    | _ => false
  let cs' := if neg then cs.drop 1 else cs
  let ip := cs'.takeWhile (fun c => c ≠ '.')
  let fp := (cs'.dropWhile (fun c => c ≠ '.')).drop 1
  let v : ℚ := (decDigitsVal ip : ℚ) + (decDigitsVal fp : ℚ) / ((10 : ℚ) ^ fp.length)
  if neg then -v else v

/-- `floating`: `int "." natural`, then
`parseFloat(`${left}${dot}${right}`)` — the three parts are converted to
text, concatenated, and re-read as a decimal. -/
def floating : Parser ℚ :=
  expected "floating point number"
    (pBind int fun left =>
      pBind (char '.') fun dot =>
        pMap (fun right => parseFloatLit (jsIntToString left ++ dot ++ jsIntToString right))
          natural)

/-- `numeric = choice(floating, natural)`. -/
def numeric : Parser ℚ := choice [floating, natural]

/-- The numeric value of the optionally-signed integer part, per the spec's
reading of `int` (sign `"-"` negates, `"+"` or no sign keeps the value). -/
def intValOf (sgn ds : List Char) : ℚ :=
  if sgn = ['-'] then -((decDigitsVal ds : ℚ)) else ((decDigitsVal ds : ℚ))

/-- The value the claim specifies for `floating`: read the decimal obtained
by textually concatenating the integer part's numeric value, a dot, and the
fractional digit run's value parsed as an unsigned natural number. -/
def specFloatingValue (sgn ds1 ds2 : List Char) : ℚ :=
  parseFloatLit (jsIntToString (intValOf sgn ds1) ++ "." ++ (decDigitsVal ds2).repr)

/-- Fuel-indexed body of `skipGarbage`:
`alt(p, () => anyChar.chain(() => skipGarbage(p)))`.  Each retry consumes
one character, so fuel `input.length + 1` is never exhausted. -/
def skipGarbageFuel {α : Type} (p : Parser α) : Nat → Parser α
  | 0 => pZero
  | fuel + 1 => pAlt p (fun _ => pBind anyChar (fun _ => skipGarbageFuel p fuel))

/-- `skipGarbage(p)`: try `p` at every offset, advancing one character at a
time on failure. -/
def skipGarbage {α : Type} (p : Parser α) : Parser α := fun s =>
  skipGarbageFuel p (s.length + 1) s

/-- `move = word` (move grammar deliberately loose in the source). -/
def move : Parser String := word

/-- `moves = sepBy(move, whitespaces)`. -/
def moves : Parser (List String) := sepBy move whitespaces

/-- `uciSetOptionValue`: `"value"`, whitespace, then characters up to a
newline or EOF (the terminator is consumed). -/
def uciSetOptionValue : Parser String :=
  pBind (str "value") fun _ =>
    pBind whitespaces fun _ =>
      flat (manyTill (choice [newline, eof]) (noneOf "\n"))

/-- `uciSetOptionId`: `"name"`, whitespace, then characters up to a
lookahead of `whitespaces "value"`, newline, or EOF. -/
def uciSetOptionId : Parser String :=
  pBind (str "name") fun _ =>
    pBind whitespaces fun _ =>
      flat (manyTill
        (lookahead (choice [pBind whitespaces (fun _ => str "value"), newline, eof]))
        (noneOf "\n"))

/-- `uciPositionFen`. -/
def uciPositionFen : Parser UCIPosition :=
  pBind (str "fen") fun _ =>
    pBind whitespaces fun _ =>
      pMap (fun fen => UCIPosition.FEN fen)
        (flat (manyTill (lookahead (choice [str "moves", newline, eof])) (noneOf "\n")))

/-- `uciPositionStartPos`. -/
def uciPositionStartPos : Parser UCIPosition :=
  pMap (fun _ => UCIPosition.StartPos) (str "startpos")

/-- `uciPositionMoves`. -/
def uciPositionMoves : Parser (List String) :=
  pBind (str "moves") fun _ => pBind whitespaces fun _ => moves

/-- `uciRegisterLater`. -/
def uciRegisterLater : Parser UCIRegister :=
  pMap (fun _ => UCIRegister.Later) (str "later")

/-- `uciRegisterName`. -/
def uciRegisterName : Parser UCIRegister :=
  pBind (str "name") fun _ =>
    pBind whitespaces fun _ =>
      pMap (fun name => UCIRegister.Name name)
        (flat (manyTill (choice [newline, eof]) (noneOf "\n")))

/-- `uciRegisterCode`. -/
def uciRegisterCode : Parser UCIRegister :=
  pBind (str "code") fun _ =>
    pBind whitespaces fun _ =>
      pMap (fun code => UCIRegister.Code code)
        (flat (manyTill (choice [newline, eof]) (noneOf "\n")))

/-- `uciRegister = choice(uciRegisterLater, uciRegisterCode, uciRegisterName)`. -/
def uciRegister : Parser UCIRegister :=
  choice [uciRegisterLater, uciRegisterCode, uciRegisterName]

/-- `uciGoSearchMovesParameter`. -/
def uciGoSearchMovesParameter : Parser UCIGoParameter :=
  pBind (str "searchmoves") fun _ =>
    pBind whitespaces fun _ =>
      pMap (fun ms => UCIGoParameter.SearchMoves ms) moves

/-- `uciGoPonderParameter`. -/
def uciGoPonderParameter : Parser UCIGoParameter :=
  pMap (fun _ => UCIGoParameter.Ponder) (str "ponder")

/-- `uciGoWTimeParameter`. -/
def uciGoWTimeParameter : Parser UCIGoParameter :=
  pBind (str "wtime") fun _ =>
    pBind whitespaces fun _ =>
      pMap (fun t => UCIGoParameter.WTime t) numeric

/-- `uciGoBTimeParameter`. -/
def uciGoBTimeParameter : Parser UCIGoParameter :=
  pBind (str "btime") fun _ =>
    pBind whitespaces fun _ =>
      pMap (fun t => UCIGoParameter.BTime t) numeric

/-- `uciGoWIncParameter`. -/
def uciGoWIncParameter : Parser UCIGoParameter :=
  pBind (str "winc") fun _ =>
    pBind whitespaces fun _ =>
      pMap (fun t => UCIGoParameter.WInc t) numeric

/-- `uciGoBIncParameter`. -/
def uciGoBIncParameter : Parser UCIGoParameter :=
  pBind (str "binc") fun _ =>
    pBind whitespaces fun _ =>
      pMap (fun t => UCIGoParameter.BInc t) numeric

/-- `uciGoMovesToGoParameter`. -/
def uciGoMovesToGoParameter : Parser UCIGoParameter :=
  pBind (str "movestogo") fun _ =>
    pBind whitespaces fun _ =>
      pMap (fun n => UCIGoParameter.MovesToGo n) numeric

/-- `uciGoDepthParameter`. -/
def uciGoDepthParameter : Parser UCIGoParameter :=
  pBind (str "depth") fun _ =>
    pBind whitespaces fun _ =>
      pMap (fun d => UCIGoParameter.Depth d) numeric

/-- `uciGoNodesParameter`. -/
def uciGoNodesParameter : Parser UCIGoParameter :=
  pBind (str "nodes") fun _ =>
    pBind whitespaces fun _ =>
      pMap (fun n => UCIGoParameter.Nodes n) numeric

/-- `uciGoMateParameter`. -/
def uciGoMateParameter : Parser UCIGoParameter :=
  pBind (str "mate") fun _ =>
    pBind whitespaces fun _ =>
      pMap (fun n => UCIGoParameter.Mate n) numeric

/-- `uciGoMoveTimeParameter`. -/
def uciGoMoveTimeParameter : Parser UCIGoParameter :=
  pBind (str "movetime") fun _ =>
    pBind whitespaces fun _ =>
      pMap (fun t => UCIGoParameter.MoveTime t) numeric

/-- `uciGoInfiniteParameter`. -/
def uciGoInfiniteParameter : Parser UCIGoParameter :=
  pMap (fun _ => UCIGoParameter.Infinite) (str "infinite")

/-- `uciGoParameter`: choice over the twelve parameter parsers, in the
source's listed order. -/
def uciGoParameter : Parser UCIGoParameter :=
  choice
    [uciGoSearchMovesParameter, uciGoPonderParameter, uciGoWTimeParameter,
     uciGoBTimeParameter, uciGoWIncParameter, uciGoBIncParameter,
     uciGoMovesToGoParameter, uciGoDepthParameter, uciGoNodesParameter,
     uciGoMateParameter, uciGoMoveTimeParameter, uciGoInfiniteParameter]

/-- `uciUciCmd`. -/
def uciUciCmd : Parser UCIEngineCommand :=
  expected "uci" (pMap (fun _ => UCIEngineCommand.UCI) (str "uci"))

/-- `uciDebugCmd`: `"debug"`, whitespace, then an optional `onOff` flag
(defaulting to `undefined`). -/
def uciDebugCmd : Parser UCIEngineCommand :=
  expected "debug [on|off]"
    (pBind (str "debug") fun _ =>
      pBind whitespaces fun _ =>
        pMap (fun o => UCIEngineCommand.Debug o)
          (option none (pMap (fun b => some b) onOff)))

/-- `uciIsReadyCmd`. -/
def uciIsReadyCmd : Parser UCIEngineCommand :=
  expected "isready" (pMap (fun _ => UCIEngineCommand.IsReady) (str "isready"))

/-- `uciSetOptionCmd`: `"setoption"`, whitespace, the id, whitespace, then
UNCONDITIONALLY `uciSetOptionValue` (the source has no `option` wrapper
around the value clause). -/
def uciSetOptionCmd : Parser UCIEngineCommand :=
  expected "setoption name <id> [value <x>]"
    (pBind (str "setoption") fun _ =>
      pBind whitespaces fun _ =>
        pBind uciSetOptionId fun name =>
          pBind whitespaces fun _ =>
            pMap (fun v => UCIEngineCommand.SetOption name (some v)) uciSetOptionValue)

/-- `uciRegisterCmd`. -/
def uciRegisterCmd : Parser UCIEngineCommand :=
  expected "register [parameter]"
    (pBind (str "register") fun _ =>
      pBind whitespaces fun _ =>
        pMap (fun r => UCIEngineCommand.Register r) uciRegister)

/-- `uciNewGameCmd`. -/
def uciNewGameCmd : Parser UCIEngineCommand :=
  expected "ucinewgame" (pMap (fun _ => UCIEngineCommand.UCINewGame) (str "ucinewgame"))

/-- `uciPositionCmd`. -/
def uciPositionCmd : Parser UCIEngineCommand :=
  expected "position [fen <fenstring> | startpos ]  moves <move1> .... <movei>"
    (pBind (str "position") fun _ =>
      pBind whitespaces fun _ =>
        pBind (choice [uciPositionFen, uciPositionStartPos]) fun pos =>
          pBind whitespaces fun _ =>
            pMap (fun ms => UCIEngineCommand.Position pos ms)
              (option [] uciPositionMoves))

/-- `uciGoCmd`. -/
def uciGoCmd : Parser UCIEngineCommand :=
  expected "go [parameters]"
    (pBind (str "go") fun _ =>
      pBind whitespaces fun _ =>
        pMap (fun ps => UCIEngineCommand.Go ps) (sepBy uciGoParameter whitespaces))

/-- `uciStopCmd`. -/
def uciStopCmd : Parser UCIEngineCommand :=
  expected "stop" (pMap (fun _ => UCIEngineCommand.Stop) (str "stop"))

/-- `uciPonderhitCmd`. -/
def uciPonderhitCmd : Parser UCIEngineCommand :=
  expected "ponderhit" (pMap (fun _ => UCIEngineCommand.Ponderhit) (str "ponderhit"))

/-- `uciQuitCmd`. -/
def uciQuitCmd : Parser UCIEngineCommand :=
  expected "quit" (pMap (fun _ => UCIEngineCommand.Quit) (str "quit"))

/-- `uciEngineCmd`: choice over the eleven command parsers in the source's
listed order. -/
def uciEngineCmd : Parser UCIEngineCommand :=
  choice
    [uciUciCmd, uciDebugCmd, uciIsReadyCmd, uciSetOptionCmd, uciRegisterCmd,
     uciNewGameCmd, uciPositionCmd, uciGoCmd, uciStopCmd, uciPonderhitCmd,
     uciQuitCmd]

/-- `uciEngineCmdEOF`: a command followed by trailing whitespace and EOF. -/
def uciEngineCmdEOF : Parser UCIEngineCommand :=
  pBind uciEngineCmd fun cmd =>
    pBind whitespaces fun _ =>
      pMap (fun _ => cmd) eof

/-- `parseUCIEngineCmd`: garbage-skipping top-level parse, projecting the
command out of the final result. -/
def parseUCIEngineCmd (s : List Char) : Except ParseError UCIEngineCommand :=
  (expected "proper command eventually" (skipGarbage uciEngineCmdEOF) s).map
    (fun r => r.1)

/-! ### Response model — `src/lib/UCI/Types.ts` -/

/-- `UCIId`. -/
inductive UCIId : Type
  | Name (name : String) : UCIId
  | Author (author : String) : UCIId
deriving DecidableEq, Repr

/-- `UCIScore`. -/
inductive UCIScore : Type
  | Centipawns (n : ℚ) : UCIScore
  | Mate (n : ℚ) : UCIScore
  | Lowerbound : UCIScore
  | Upperbound : UCIScore
deriving DecidableEq, Repr

/-- `UCIInfo`. -/
inductive UCIInfo : Type
  | Depth (depth : ℚ) : UCIInfo
  | SelDepth (depth : ℚ) : UCIInfo
  | Time (time : ℚ) : UCIInfo
  | Nodes (nodes : ℚ) : UCIInfo
  | Preview (moves : List String) : UCIInfo
  | MultiPreview (n : ℚ) : UCIInfo
  | Score (params : List UCIScore) : UCIInfo
  | CurrMove (move : String) : UCIInfo
  | CurrMoveNumber (n : ℚ) : UCIInfo
  | HashFull (n : ℚ) : UCIInfo
  | NodesPerSecond (n : ℚ) : UCIInfo
  | TableBaseHits (n : ℚ) : UCIInfo
  | ShredderBaseHits (n : ℚ) : UCIInfo
  | CPULoad (n : ℚ) : UCIInfo
  | String (s : String) : UCIInfo
  | Refutation (moves : List String) : UCIInfo
  | CurrLine (cpunr : ℚ) (moves : List String) : UCIInfo
deriving DecidableEq, Repr

/-- The option-kind union `"Check" | "Spin" | "Combo" | "Button" | "String"`. -/
inductive UCIOptionType : Type
  | Check : UCIOptionType
  | Spin : UCIOptionType
  | Combo : UCIOptionType
  | Button : UCIOptionType
  | String : UCIOptionType
deriving DecidableEq, Repr

/-- `option.type.toLowerCase()` on the five literal kinds. -/
def lowerOptionType : UCIOptionType → String
  | .Check => "check"
  | .Spin => "spin"
  | .Combo => "combo"
  | .Button => "button"
  | .String => "string"

/-- `UCIOption`. -/
structure UCIOption : Type where
  name : String
  type : UCIOptionType
  default : Option String
  min : Option String
  max : Option String
  var : Option String
deriving DecidableEq, Repr

/-- `UCIGUICommand` (engine-to-client responses). -/
inductive UCIGUICommand : Type
  | Id (id : UCIId) : UCIGUICommand
  | UCIOk : UCIGUICommand
  | ReadyOk : UCIGUICommand
  | BestMove (move : String) (ponder : Option String) : UCIGUICommand
  | CopyProtection (status : String) : UCIGUICommand
  | Registration (status : String) : UCIGUICommand
  | Info (params : List UCIInfo) : UCIGUICommand
  | Option (option : UCIOption) : UCIGUICommand
deriving DecidableEq, Repr

/-! ### Serialization — `src/lib/UCI/index.ts` -/

/-- JS number interpolation `${n}`; the responses serialized by this layer
only carry integer-valued numbers, for which `jsIntToString` is exact. -/
def numTok (q : ℚ) : String := jsIntToString q

/-- `tokenizeId`. -/
def tokenizeId : UCIId → List String
  | .Name name => ["name", name]
  | .Author author => ["author", author]

/-- `tokenizeScore`. -/
def tokenizeScore : UCIScore → List String
  | .Centipawns n => ["cp", numTok n]
  | .Mate n => ["mate", numTok n]
  | .Lowerbound => ["lowerbound"]
  | .Upperbound => ["upperbound"]

/-- `tokenizeInfo`. -/
def tokenizeInfo : UCIInfo → List String
  | .Depth depth => ["depth", numTok depth]
  | .SelDepth depth => ["seldepth", numTok depth]
  | .Time time => ["time", numTok time]
  | .Nodes nodes => ["nodes", numTok nodes]
  | .Preview ms => "pv" :: ms
  | .MultiPreview n => ["multipv", numTok n]
  | .Score params => "score" :: params.flatMap tokenizeScore
  | .CurrMove move => ["currmove", move]
  | .CurrMoveNumber n => ["currmovenumber", numTok n]
  | .HashFull n => ["hashfull", numTok n]
  | .NodesPerSecond n => ["nps", numTok n]
  | .TableBaseHits n => ["tbhits", numTok n]
  | .ShredderBaseHits n => ["sbhits", numTok n]
  | .CPULoad n => ["cpuload", numTok n]
  | .String s => ["string", s]
  | .Refutation ms => "refutation" :: ms
  | .CurrLine cpunr ms => "currline" :: numTok cpunr :: ms

/-- JS truthiness guard `v ? [k, v] : []` on an optional string field:
both `undefined` and the empty string are falsy and omitted. -/
def optTokens (k : String) (v : Option String) : List String :=
  match v with
  | none => []
  | some s => if s = "" then [] else [k, s]

/-- `tokenizeOption`. -/
def tokenizeOption (o : UCIOption) : List String :=
  ["name", o.name, "type", lowerOptionType o.type]
    ++ optTokens "default" o.default
    ++ optTokens "min" o.min
    ++ optTokens "max" o.max
    ++ optTokens "var" o.var

/-- JS truthiness guard `ponder ? [ponder] : []`. -/
def ponderTokens (v : Option String) : List String :=
  match v with
  | none => []
  | some s => if s = "" then [] else [s]

/-- `tokenizeGUICmd`. -/
def tokenizeGUICmd : UCIGUICommand → List String
  | .Id id => "id" :: tokenizeId id
  | .UCIOk => ["uciok"]
  | .ReadyOk => ["readyok"]
  | .BestMove move ponder => "bestmove" :: move :: ponderTokens ponder
  | .CopyProtection status => ["copyprotection", status]
  | .Registration status => ["registration", status]
  | .Info params => "info" :: params.flatMap tokenizeInfo
  | .Option o => "option" :: tokenizeOption o

/-- Model of `Array.join(" ")` (`serializeTokens`). -/
def joinSpace : List String → String
  | [] => ""
  | [t] => t
  | t :: ts => t ++ " " ++ joinSpace ts

/-- `serializeTokens(tokens) = tokens.join(" ")`. -/
def serializeTokens (ts : List String) : String := joinSpace ts

/-- `serializeGUICmd = flow(tokenizeGUICmd, serializeTokens)`. -/
def serializeGUICmd (c : UCIGUICommand) : String := serializeTokens (tokenizeGUICmd c)

/-! ### Dispatcher responses — `protocolHandler` in `src/lib/UCI/index.ts` -/

/-- The value produced by the external `onInit` capability. -/
structure UCIInitResult : Type where
  name : String
  author : String
  options : List UCIOption
deriving DecidableEq, Repr

/-- The response list `protocolHandler` resolves with for each command,
parameterized by the `onInit` result (the promise/effect layer is erased;
every case's array literal is transcribed verbatim: `UCI` builds
identity, options, acknowledgment; `IsReady` responds `readyok`; every
other case resolves with `[]`). -/
def protocolResponses (r : UCIInitResult) : UCIEngineCommand → List UCIGUICommand
  | .UCI =>
    UCIGUICommand.Id (UCIId.Name r.name) :: UCIGUICommand.Id (UCIId.Author r.author)
      :: (r.options.map UCIGUICommand.Option ++ [UCIGUICommand.UCIOk])
  | .Debug _ => []
  | .IsReady => [UCIGUICommand.ReadyOk]
  | .SetOption _ _ => []
  | .Register _ => []
  | .UCINewGame => []
  | .Position _ _ => []
  | .Go _ => []
  | .Stop => []
  | .Ponderhit => []
  | .Quit => []

/-! ### Search/abort state machine — `UCIProxyHandler` (examples adapter)

The adapter holds a single `AbortController`, created once in the
constructor and never reassigned (no other assignment to
`this.abortController` exists in the class), and an optional
`robotRequest` promise.  `onGo` exits the process when a request is
already in flight, otherwise starts a `fetch` whose `signal` is the shared
controller's; `onStop` calls `abortController.abort()`.  A fetch whose
signal is aborted — whether already aborted at creation or aborted while
pending — rejects, so when the request settles the `catch` branch only
logs a diagnostic and the `finally` branch clears `robotRequest`; only a
fulfilled request reaches `sendInfo`/`sendBestMove`.

The model serializes the JS event loop: each `ProxyEvent` is one macrotask
(a dispatched command, or the settling of the pending robot request). -/

/-- Observable emissions of the adapter: protocol response lines
(`sendBestMove`, `sendInfo`) versus the diagnostic side channel
(`logDebug`). -/
inductive ProxyEmit : Type
  | bestMove (move : String) : ProxyEmit
  | infoLine : ProxyEmit
  | diag : ProxyEmit
deriving DecidableEq, Repr

/-- Adapter state relevant to search/cancellation: the shared abort
signal, whether a robot request is pending, the move that request would
deliver, and whether the process is still alive (`process.exit` not yet
called). -/
structure ProxyState : Type where
  aborted : Bool
  inflight : Bool
  pending : String
  alive : Bool
deriving DecidableEq, Repr

/-- Adapter state at construction: fresh `AbortController` (not aborted),
no pending request. -/
def initProxyState : ProxyState :=
  { aborted := false, inflight := false, pending := "", alive := true }

/-- Events processed by the adapter: `go mv` dispatches a Go whose robot
request would eventually deliver `mv`; `stop` dispatches Stop; `settle` is
the event-loop step at which the pending robot request settles and `onGo`'s
continuation (then/catch + finally) runs; `other` is any command that
touches none of these fields (`isready`, `debug`, `setoption`, `position`,
`ucinewgame`, `ponderhit`). -/
inductive ProxyEvent : Type
  | go (mv : String) : ProxyEvent
  | stop : ProxyEvent
  | settle : ProxyEvent
  | other : ProxyEvent
deriving DecidableEq, Repr

/-- One event-loop step of the adapter.  `go` while in flight is the fatal
`process.exit(1)` path; `go` otherwise registers the request (the fetch is
created with the shared signal).  `settle` with the signal aborted is the
rejection path: diagnostics only, slot cleared; with a live signal it is
the success path `sendInfo` then `sendBestMove`, slot cleared.  A dead
process does nothing. -/
def stepProxy (s : ProxyState) (e : ProxyEvent) : ProxyState × List ProxyEmit :=
  if s.alive = false then (s, []) else
  match e with
  | .go mv =>
    if s.inflight then ({ s with alive := false }, [.diag])
    else ({ s with inflight := true, pending := mv }, [.diag])
  | .stop => ({ s with aborted := true }, [.diag])
  | .settle =>
    if s.inflight then
      if s.aborted then ({ s with inflight := false }, [.diag])
      else ({ s with inflight := false }, [.infoLine, .bestMove s.pending])
    else (s, [])
  | .other => (s, [])

/-- Run the adapter over a sequence of events, accumulating emissions. -/
def runProxy (s : ProxyState) : List ProxyEvent → ProxyState × List ProxyEmit
  | [] => (s, [])
  | e :: es =>
    let r := stepProxy s e
    let r' := runProxy r.1 es
    (r'.1, r.2 ++ r'.2)

/-- Whether an emission list contains a best-move response line. -/
def hasBestMove (l : List ProxyEmit) : Bool :=
  l.any fun e =>
    match e with
    | .bestMove _ => true
    | _ => false

/-- Whether every emission is a diagnostic (no response line at all). -/
def allDiag (l : List ProxyEmit) : Bool :=
  l.all fun e =>
    match e with
    | .diag => true
    | _ => false

/-- Whether an event is neither a `go` dispatch nor the settle step of the
pending request. -/
def isNonSearchEvent (e : ProxyEvent) : Bool :=
  match e with
  | .go _ => false
  | .settle => false
  | _ => true

/-- Whether an event list contains neither a `go` dispatch nor the settle
step of the pending request. -/
def noGoSettle (es : List ProxyEvent) : Bool :=
  es.all isNonSearchEvent

/-! ### Quit path — `onQuit` (examples adapter)

`async onQuit() { this.onQuit_(); process.exit(0); }` calls the async
teardown `onQuit_ = async () => { const f = await setupRobotPromise;
return f(); }` WITHOUT `await`.  Calling an async function runs its body
synchronously up to the first `await` and defers the rest; `process.exit`
terminates immediately, discarding every deferred continuation.  The model
below replays exactly that scheduling. -/

/-- Observable actions on the quit path. -/
inductive QAct : Type
  | teardownStarted : QAct
  | teardownCompleted : QAct
  | processExit : QAct
deriving DecidableEq, Repr

/-- Micro-steps of an async function body: an action, or an `await`
suspension point. -/
inductive AStep : Type
  | act (a : QAct) : AStep
  | await1 : AStep
deriving DecidableEq, Repr

/-- Body of the teardown `onQuit_` (`exitGracefully`): its very first
statement awaits `setupRobotPromise`; everything observable — killing the
robot process group and finishing the graceful exit — happens after that
suspension point. -/
def teardownBody : List AStep := [AStep.await1, AStep.act QAct.teardownCompleted]

/-- Actions an async call performs synchronously, before its first
`await`. -/
def syncActions : List AStep → List QAct
  | [] => []
  | AStep.await1 :: _ => []
  | AStep.act a :: rest => a :: syncActions rest

/-- All actions of an async body, in order — what running the body to
completion (i.e. awaiting it) would perform. -/
def allActions : List AStep → List QAct
  | [] => []
  | AStep.await1 :: rest => allActions rest
  | AStep.act a :: rest => a :: allActions rest

/-- The action trace of `onQuit`: the un-awaited call to `onQuit_` starts
the teardown and contributes only its synchronous prefix; `process.exit(0)`
then terminates, dropping the deferred remainder of `teardownBody`. -/
def onQuitTrace : List QAct :=
  QAct.teardownStarted :: syncActions teardownBody ++ [QAct.processExit]

/-- The trace the spec describes (teardown awaited to completion before the
process terminates).  Modelled from the spec: `onQuit()` is an async
teardown that completes before process exit. -/
def onQuitSpecTrace : List QAct :=
  QAct.teardownStarted :: allActions teardownBody ++ [QAct.processExit]

/-! ## Claim theorems -/

/-! ### C1 — ordered choice -/

/-- C1, counterexample: the claim says `choice(p1, p2)` returns `p1`'s
result whenever `p1` succeeds.  On input `"ab"`, `str "a"` succeeds with
`("a", "b")`, yet `choice(str "a", str "ab")` returns `("ab", "")` —
the SECOND alternative's result — because `reduceRight`'s accumulator-first
callback builds the alternatives in reverse order. -/
theorem choice_not_first_result :
    str "a" ("ab".toList) = .ok ("a", ['b']) ∧
    choice [str "a", str "ab"] ("ab".toList) = .ok ("ab", []) :=
  ⟨rfl, rfl⟩

/-- C1, amended: `choice(p1..pn)` tries its alternatives in REVERSE listed
order, so for a pair the last parser is attempted first and wins whenever
it succeeds, regardless of whether `p1` would also succeed. -/
theorem choice_last_listed_wins {α : Type} (p1 p2 : Parser α) (s : List Char)
    (v : α) (rem : List Char) (h : p2 s = .ok (v, rem)) :
    choice [p1, p2] s = .ok (v, rem) := by
  simp [choice, pAlt, pZero, h]

/-- C1, witness for the amended theorem at `p1 = str "a"`, `p2 = str "ab"`,
input `"ab"`. -/
theorem choice_last_listed_wins_witness :
    str "ab" ("ab".toList) = .ok ("ab", ([] : List Char)) ∧
    choice [str "a", str "ab"] ("ab".toList) = .ok ("ab", []) :=
  ⟨rfl, choice_last_listed_wins (str "a") (str "ab") ("ab".toList) "ab" [] rfl⟩

/-! ### C2 — garbage tolerance -/

/-- If the wrapped grammar fails at every offset inside the noise prefix
and succeeds at the start of `rest`, `skipGarbage` succeeds on the whole
input with exactly the result obtained at `rest`. -/
theorem skipGarbageFuel_finds {α : Type} (p : Parser α) (c : α) (rem : List Char) :
    ∀ (noise rest : List Char),
      (∀ i, i < noise.length → failed (p (noise.drop i ++ rest)) = true) →
      p rest = .ok (c, rem) →
      skipGarbageFuel p ((noise ++ rest).length + 1) (noise ++ rest) = .ok (c, rem)
  | [], rest, _, hok => by
    simp [skipGarbageFuel, pAlt, hok]
  | ch :: noise, rest, hfail, hok => by
    have h0 : failed (p (ch :: (noise ++ rest))) = true := by
      simpa using hfail 0 (by simp)
    have ih := skipGarbageFuel_finds p c rem noise rest
      (fun i hi => by simpa using hfail (i + 1) (by simpa using Nat.succ_lt_succ hi))
      hok
    obtain ⟨e, he⟩ : ∃ e, p (ch :: (noise ++ rest)) = .error e := by
      cases h : p (ch :: (noise ++ rest)) with
      | ok v => rw [h] at h0; simp [failed] at h0
      | error e => exact ⟨e, rfl⟩
    rw [show ((ch :: noise) ++ rest) = ch :: (noise ++ rest) from rfl,
      show (ch :: (noise ++ rest)).length + 1 = ((noise ++ rest).length + 1) + 1 by simp,
      show skipGarbageFuel p (((noise ++ rest).length + 1) + 1)
          = pAlt p (fun _ => pBind anyChar (fun _ => skipGarbageFuel p ((noise ++ rest).length + 1)))
        from rfl]
    simp only [pAlt, he, pBind, anyChar, satisfy]
    exact ih

/-- C2: for an input made of a noise prefix on which the full command
grammar fails at every inner offset, followed by text the grammar accepts,
`parseUCIEngineCmd` succeeds on the whole line and returns the same
`Command` value as parsing the command text alone (the prefix is silently
discarded). -/
theorem parse_skips_garbage (noise cmdtxt : List Char) (c : UCIEngineCommand)
    (rem : List Char)
    (hfail : ∀ i, i < noise.length → failed (uciEngineCmdEOF (noise.drop i ++ cmdtxt)) = true)
    (hok : uciEngineCmdEOF cmdtxt = .ok (c, rem)) :
    parseUCIEngineCmd (noise ++ cmdtxt) = .ok c ∧ parseUCIEngineCmd cmdtxt = .ok c := by
  have h1 := skipGarbageFuel_finds uciEngineCmdEOF c rem noise cmdtxt hfail hok
  have h2 := skipGarbageFuel_finds uciEngineCmdEOF c rem [] cmdtxt
    (fun i hi => by simp at hi) hok
  simp only [List.nil_append] at h2
  simp only [List.length_append] at h1
  constructor
  · simp [parseUCIEngineCmd, skipGarbage, expected, h1, Except.map]
  · simp [parseUCIEngineCmd, skipGarbage, expected, h2, Except.map]

/-- C2, witness: `"xyz123 isready"` parses to `IsReady`, the same value as
`"isready"` alone. -/
theorem parse_skips_garbage_witness :
    (∀ i, i < ("xyz123 ".toList).length →
      failed (uciEngineCmdEOF (("xyz123 ".toList).drop i ++ "isready".toList)) = true) ∧
    parseUCIEngineCmd ("xyz123 ".toList ++ "isready".toList) = .ok UCIEngineCommand.IsReady :=
  ⟨by decide,
   (parse_skips_garbage ("xyz123 ".toList) ("isready".toList)
      UCIEngineCommand.IsReady [] (by decide) (by rfl)).1⟩

/-! ### C3 — `debug [on|off]` -/

/-- C3: the code parses `"debug on"` to `Debug (some true)` and `"debug"`
to `Debug none` as the claim says, but `"debug off"` is a PARSE ERROR:
the `off` parser matches the literal `"false"` (so `"debug false"` —
absent from the protocol grammar — is what parses to `Debug (some
false)`). -/
theorem debug_grammar_vs_code :
    parseUCIEngineCmd ("debug on".toList) = .ok (UCIEngineCommand.Debug (some true)) ∧
    parseUCIEngineCmd ("debug".toList) = .ok (UCIEngineCommand.Debug none) ∧
    failed (parseUCIEngineCmd ("debug off".toList)) = true ∧
    parseUCIEngineCmd ("debug false".toList) = .ok (UCIEngineCommand.Debug (some false)) :=
  ⟨rfl, rfl, rfl, rfl⟩

/-! ### C4 — `setoption` optional value clause -/

/-- C4: `"setoption name foo value bar"` parses to `SetOption "foo" (some
"bar")`, but `"setoption name foo"` — which the claim (and the parser's own
`expected` label `setoption name <id> [value <x>]`) says should parse with
the value absent — is a PARSE ERROR: `uciSetOptionCmd` sequences
`uciSetOptionValue` unconditionally. -/
theorem setoption_value_required_by_code :
    parseUCIEngineCmd ("setoption name foo value bar".toList) =
      .ok (UCIEngineCommand.SetOption "foo" (some "bar")) ∧
    failed (parseUCIEngineCmd ("setoption name foo".toList)) = true :=
  ⟨rfl, rfl⟩

/-! ### C10 — textual concatenation in `floating` -/

/-- A character of the digit alphabet is not a sign character. -/
theorem digit_not_sign (c : Char) (h : strContains "0123456789" c = true) :
    strContains "-+" c = false := by
  have hmem : c ∈ ("0123456789".data) := by
    simpa [strContains, List.contains] using h
  have hl : ("0123456789".data) = ['0', '1', '2', '3', '4', '5', '6', '7', '8', '9'] := rfl
  rw [hl] at hmem
  fin_cases hmem <;> rfl

/-- `String.append` concatenates the underlying character lists. -/
theorem strData_append (a b : String) : (a ++ b).data = a.data ++ b.data := by
  cases a
  cases b
  rfl

/-- Joining singleton strings recovers the character list. -/
theorem joinAll_singletons (ds : List Char) :
    (joinAll (ds.map String.singleton)).data = ds := by
  induction ds with
  | nil => rfl
  | cons d ds ih =>
    simp only [List.map_cons, joinAll, strData_append, ih]
    rfl

/-- Greedy digit scan: `many digit`'s loop consumes exactly a maximal run
of digits. -/
theorem manyLoop_digits :
    ∀ (ds rest : List Char) (as : List String),
      (∀ c ∈ ds, strContains "0123456789" c = true) →
      (∀ c, rest.head? = some c → strContains "0123456789" c = false) →
      manyLoop digit (ds.length + rest.length) as (ds ++ rest) (digit (ds ++ rest)) =
        (as ++ ds.map String.singleton, rest)
  | [], rest, as, _, hrest => by
    cases rest with
    | nil => simp [digit, oneOf, satisfy, manyLoop]
    | cons c t =>
      have hc := hrest c rfl
      simp [digit, oneOf, satisfy, hc, manyLoop]
  | d :: ds, rest, as, hds, hrest => by
    have hd := hds d (by simp)
    have hdig : digit ((d :: ds) ++ rest) = .ok (String.singleton d, ds ++ rest) := by
      simp [digit, oneOf, satisfy, hd]
    rw [hdig,
      show (d :: ds).length + rest.length = (ds.length + rest.length) + 1 by
        simp only [List.length_cons]; omega,
      show manyLoop digit ((ds.length + rest.length) + 1) as ((d :: ds) ++ rest)
            (.ok (String.singleton d, ds ++ rest))
          = manyLoop digit (ds.length + rest.length) (as ++ [String.singleton d])
            (ds ++ rest) (digit (ds ++ rest)) from rfl,
      manyLoop_digits ds rest (as ++ [String.singleton d]) (fun c hc => hds c (by simp [hc]))
        hrest]
    simp

/-- `many digit` on a digit run followed by a non-digit returns exactly the
run. -/
theorem many_digits (ds rest : List Char)
    (hds : ∀ c ∈ ds, strContains "0123456789" c = true)
    (hrest : ∀ c, rest.head? = some c → strContains "0123456789" c = false) :
    many digit (ds ++ rest) = .ok (ds.map String.singleton, rest) := by
  have h := manyLoop_digits ds rest [] hds hrest
  simp only [List.nil_append] at h
  simp [many, List.length_append, h]

/-- `many1 digit` on a nonempty digit run followed by a non-digit returns
exactly the run. -/
theorem many1_digits (ds rest : List Char) (hne : ds ≠ [])
    (hds : ∀ c ∈ ds, strContains "0123456789" c = true)
    (hrest : ∀ c, rest.head? = some c → strContains "0123456789" c = false) :
    many1 digit (ds ++ rest) = .ok (ds.map String.singleton, rest) := by
  cases ds with
  | nil => exact absurd rfl hne
  | cons d ds =>
    have hd := hds d (by simp)
    have hdig : digit (d :: (ds ++ rest)) = .ok (String.singleton d, ds ++ rest) := by
      simp [digit, oneOf, satisfy, hd]
    have hmany := many_digits ds rest (fun c hc => hds c (by simp [hc])) hrest
    simp [many1, hdig, hmany]

/-- `natural` parses a maximal nonempty digit run to its decimal value. -/
theorem natural_digits (ds rest : List Char) (hne : ds ≠ [])
    (hds : ∀ c ∈ ds, strContains "0123456789" c = true)
    (hrest : ∀ c, rest.head? = some c → strContains "0123456789" c = false) :
    natural (ds ++ rest) = .ok ((decDigitsVal ds : ℚ), rest) := by
  have h1 := many1_digits ds rest hne hds hrest
  have h2 : natValStr (joinAll (ds.map String.singleton)) = decDigitsVal ds := by
    have h : natValStr (joinAll (ds.map String.singleton))
        = decDigitsVal ((joinAll (ds.map String.singleton)).data) := rfl
    rw [h, joinAll_singletons]
  simp [natural, expected, pMap, flat, h1, h2]

/-- `int` parses an optional sign and a maximal digit run. -/
theorem int_parses (sgn ds rest : List Char)
    (hsgn : sgn = [] ∨ sgn = ['-'] ∨ sgn = ['+'])
    (hne : ds ≠ []) (hds : ∀ c ∈ ds, strContains "0123456789" c = true)
    (hrest : ∀ c, rest.head? = some c → strContains "0123456789" c = false) :
    int (sgn ++ (ds ++ rest)) = .ok (intValOf sgn ds, rest) := by
  have hnat := natural_digits ds rest hne hds hrest
  simp only [List.cons_append] at hnat
  rcases hsgn with h | h | h <;> subst h
  · cases ds with
    | nil => exact absurd rfl hne
    | cons d ds' =>
      have hd := digit_not_sign d (hds d (by simp))
      simp only [List.cons_append] at hnat
      simp [int, expected, pBind, pMap, option, pAlt, pOf, oneOf, satisfy, hd, hnat,
        intValOf]
  · simp [int, expected, pBind, pMap, option, pAlt, pOf, oneOf, satisfy, strContains,
      hnat, intValOf, show ¬ (String.singleton '-' = "+") by decide]
  · simp [int, expected, pBind, pMap, option, pAlt, pOf, oneOf, satisfy, strContains,
      hnat, intValOf, show String.singleton '+' = "+" by decide]

/-- `String(n)` of a natural-valued `ℚ` is the decimal digit string. -/
theorem jsIntToString_natCast (n : Nat) :
    jsIntToString ((n : ℚ)) = n.repr := by
  have hnum : ((n : ℚ)).num = (n : ℤ) := Rat.num_natCast n
  simp [jsIntToString, hnum, Int.natAbs_ofNat]

/-- C10: on an input of the shape `sign? digits "." digits rest` (maximal
digit runs), `floating` succeeds and returns exactly the decimal read from
the textual concatenation of the integer part's numeric value, `"."`, and
the fractional run's natural-number value — the fractional part is never
algebraically combined with the integer part or its sign. -/
theorem floating_textual_concatenation (sgn ds1 ds2 rest : List Char)
    (hsgn : sgn = [] ∨ sgn = ['-'] ∨ sgn = ['+'])
    (h1ne : ds1 ≠ []) (h1d : ∀ c ∈ ds1, strContains "0123456789" c = true)
    (h2ne : ds2 ≠ []) (h2d : ∀ c ∈ ds2, strContains "0123456789" c = true)
    (hrest : ∀ c, rest.head? = some c → strContains "0123456789" c = false) :
    floating (sgn ++ (ds1 ++ ('.' :: (ds2 ++ rest)))) =
      .ok (specFloatingValue sgn ds1 ds2, rest) := by
  have hint := int_parses sgn ds1 ('.' :: (ds2 ++ rest)) hsgn h1ne h1d
    (fun c hc => by
      simp only [List.head?] at hc
      cases hc
      rfl)
  have hdot : char '.' ('.' :: (ds2 ++ rest)) = .ok (".", ds2 ++ rest) := by
    simp [char, satisfy]
    rfl
  have hnat := natural_digits ds2 rest h2ne h2d hrest
  have hjs := jsIntToString_natCast (decDigitsVal ds2)
  simp [floating, expected, pBind, pMap, hint, hdot, hnat, specFloatingValue, hjs]

/-- C10, witness: `floating "-1.5"` returns the decimal read from the
concatenated text `"-1.5"`, i.e. `-(3/2)`. -/
theorem floating_textual_concatenation_witness :
    (strContains "0123456789" '5' = true) ∧
    floating ("-1.5".toList) = .ok (-(3 / 2 : ℚ), []) := by
  refine ⟨by decide, ?_⟩
  have h := floating_textual_concatenation ['-'] ['1'] ['5'] []
    (Or.inr (Or.inl rfl)) (by decide) (by decide) (by decide) (by decide)
    (fun c hc => by simp at hc)
  have he : ("-1.5".toList) = ['-'] ++ (['1'] ++ ('.' :: (['5'] ++ []))) := by decide
  have hv : specFloatingValue ['-'] ['1'] ['5'] = -(3 / 2 : ℚ) := by
    have h1 : jsIntToString (intValOf ['-'] ['1']) ++ "." ++ (decDigitsVal ['5']).repr
        = "-1.5" := rfl
    rw [specFloatingValue, h1]
    simp only [parseFloatLit]
    norm_num [decDigitsVal, List.takeWhile, List.dropWhile,
      show ¬ ('1' = '.') by decide, show ¬ ('5' = '.') by decide,
      show Char.toNat '1' = 49 from rfl, show Char.toNat '5' = 53 from rfl]
  rw [he, h, hv]

/-! ### C5 — the abort signal is one-shot and persistent -/

/-- Splitting `hasBestMove` over concatenated emissions. -/
theorem hasBestMove_append (a b : List ProxyEmit) :
    hasBestMove (a ++ b) = (hasBestMove a || hasBestMove b) :=
  List.any_append

/-- C5: the handler's cancellation signal is the single `AbortController`
created in the constructor and never replaced, so from any state in which
it has been aborted (what `onStop` does), it remains aborted after every
further event sequence and no best-move response is ever emitted again —
in particular every later Go's robot request can only settle by rejection. -/
theorem abort_signal_persists (s : ProxyState) (es : List ProxyEvent)
    (h : s.aborted = true) :
    (runProxy s es).1.aborted = true ∧ hasBestMove (runProxy s es).2 = false := by
  induction es generalizing s with
  | nil => simpa [runProxy, hasBestMove] using h
  | cons e es ih =>
    have hstep : (stepProxy s e).1.aborted = true ∧
        hasBestMove (stepProxy s e).2 = false := by
      rcases e with mv | _ | _ | _ <;> cases halive : s.alive <;>
        cases hin : s.inflight <;>
        simp [stepProxy, h, halive, hin, hasBestMove]
    have ihr := ih (stepProxy s e).1 hstep.1
    simp only [runProxy]
    exact ⟨ihr.1, by rw [hasBestMove_append, hstep.2, ihr.2]; rfl⟩

/-- C5, witness: from an aborted state, a Go followed by its settle keeps
the signal aborted and emits no best-move response. -/
theorem abort_signal_persists_witness :
    ((⟨true, false, "", true⟩ : ProxyState).aborted = true) ∧
    ((runProxy ⟨true, false, "", true⟩ [ProxyEvent.go "e2e4", ProxyEvent.settle]).1.aborted
        = true ∧
      hasBestMove
        (runProxy ⟨true, false, "", true⟩ [ProxyEvent.go "e2e4", ProxyEvent.settle]).2
        = false) :=
  ⟨rfl, abort_signal_persists ⟨true, false, "", true⟩
    [ProxyEvent.go "e2e4", ProxyEvent.settle] rfl⟩

/-! ### C6 — Stop cancels an in-flight search, no stale output -/

/-- Splitting `allDiag` over concatenated emissions. -/
theorem allDiag_append (a b : List ProxyEmit) :
    allDiag (a ++ b) = (allDiag a && allDiag b) :=
  List.all_append

/-- Running a concatenation of event lists runs them in sequence. -/
theorem runProxy_append (s : ProxyState) (a b : List ProxyEvent) :
    runProxy s (a ++ b) =
      ((runProxy (runProxy s a).1 b).1,
        (runProxy s a).2 ++ (runProxy (runProxy s a).1 b).2) := by
  induction a generalizing s with
  | nil => simp [runProxy]
  | cons e a ih => simp [runProxy, ih]

/-- A non-search event leaves `alive`, `inflight` and `pending` unchanged,
keeps the abort signal aborted, and emits only diagnostics. -/
theorem stepProxy_nonSearch (s : ProxyState) (e : ProxyEvent)
    (h : isNonSearchEvent e = true) :
    (stepProxy s e).1.alive = s.alive ∧ (stepProxy s e).1.inflight = s.inflight ∧
    (stepProxy s e).1.pending = s.pending ∧
    (s.aborted = true → (stepProxy s e).1.aborted = true) ∧
    allDiag (stepProxy s e).2 = true := by
  rcases e with mv | _ | _ | _ <;> cases halive : s.alive <;>
    simp_all [stepProxy, isNonSearchEvent, allDiag]

/-- Running only non-search events leaves `alive`, `inflight` and `pending`
unchanged, keeps the abort signal aborted, and emits only diagnostics. -/
theorem runProxy_nonSearch (es : List ProxyEvent) (s : ProxyState)
    (h : noGoSettle es = true) :
    (runProxy s es).1.alive = s.alive ∧ (runProxy s es).1.inflight = s.inflight ∧
    (runProxy s es).1.pending = s.pending ∧
    (s.aborted = true → (runProxy s es).1.aborted = true) ∧
    allDiag (runProxy s es).2 = true := by
  induction es generalizing s with
  | nil => simp [runProxy, allDiag]
  | cons e es ih =>
    rw [noGoSettle, List.all_cons, Bool.and_eq_true] at h
    obtain ⟨ha, hb, hc, hd, he⟩ := stepProxy_nonSearch s e h.1
    obtain ⟨ha', hb', hc', hd', he'⟩ := ih (stepProxy s e).1 h.2
    simp only [runProxy]
    refine ⟨by rw [ha', ha], by rw [hb', hb], by rw [hc', hc],
      fun hab => hd' (hd hab), ?_⟩
    rw [allDiag_append, he, he']
    rfl

/-- C6: an accepted Go (session alive, no search in flight), followed by
any non-search events, then Stop, then any non-search events, then the
settle of the robot request, emits only diagnostics — no best-move (and no
info) response line is ever produced for that search, even though the
request would have delivered `mv` — and the in-flight slot is cleared. -/
theorem stop_cancels_search (s : ProxyState) (mv : String)
    (mid1 mid2 : List ProxyEvent)
    (halive : s.alive = true) (hin : s.inflight = false)
    (h1 : noGoSettle mid1 = true) (h2 : noGoSettle mid2 = true) :
    allDiag (runProxy s (ProxyEvent.go mv ::
        (mid1 ++ (ProxyEvent.stop :: (mid2 ++ [ProxyEvent.settle]))))).2 = true ∧
    (runProxy s (ProxyEvent.go mv ::
        (mid1 ++ (ProxyEvent.stop :: (mid2 ++ [ProxyEvent.settle]))))).1.inflight
      = false := by
  have hgo : stepProxy s (ProxyEvent.go mv)
      = ({ s with inflight := true, pending := mv }, [ProxyEmit.diag]) := by
    simp [stepProxy, halive, hin]
  set s1 : ProxyState := { s with inflight := true, pending := mv } with hs1
  obtain ⟨m1a, m1b, m1c, _, m1e⟩ := runProxy_nonSearch mid1 s1 h1
  set s2 : ProxyState := (runProxy s1 mid1).1 with hs2
  have hstop : stepProxy s2 ProxyEvent.stop = ({ s2 with aborted := true }, [ProxyEmit.diag]) := by
    have : s2.alive = true := by rw [m1a]; exact halive
    simp [stepProxy, this]
  set s3 : ProxyState := { s2 with aborted := true } with hs3
  obtain ⟨m2a, m2b, m2c, m2d, m2e⟩ := runProxy_nonSearch mid2 s3 h2
  set s4 : ProxyState := (runProxy s3 mid2).1 with hs4
  have h4alive : s4.alive = true := by rw [m2a]; show s2.alive = true; rw [m1a]; exact halive
  have h4in : s4.inflight = true := by rw [m2b]; show s2.inflight = true; rw [m1b]
  have h4ab : s4.aborted = true := m2d rfl
  have hsettle : stepProxy s4 ProxyEvent.settle
      = ({ s4 with inflight := false }, [ProxyEmit.diag]) := by
    simp [stepProxy, h4alive, h4in, h4ab]
  simp only [runProxy, hgo, hstop, hsettle, runProxy_append]
  constructor
  · simp only [allDiag_append, m1e, m2e]
    simp [runProxy, allDiag, hstop, hsettle]
  · simp [runProxy, hstop, hsettle]

/-- C6, witness: starting from the constructed handler, Go, an unrelated
command, Stop, then the settle: only diagnostics, slot cleared. -/
theorem stop_cancels_search_witness :
    (initProxyState.alive = true) ∧
    (allDiag (runProxy initProxyState (ProxyEvent.go "e7e5" ::
        ([ProxyEvent.other] ++ (ProxyEvent.stop :: ([] ++ [ProxyEvent.settle]))))).2 = true ∧
      (runProxy initProxyState (ProxyEvent.go "e7e5" ::
        ([ProxyEvent.other] ++ (ProxyEvent.stop :: ([] ++ [ProxyEvent.settle]))))).1.inflight
        = false) :=
  ⟨rfl, stop_cancels_search initProxyState "e7e5" [ProxyEvent.other] [] rfl rfl rfl rfl⟩

/-! ### C7 — Quit and teardown -/

/-- C7: dispatching Quit returns no response line, but the teardown does
NOT complete before the process terminates: because `onQuit` invokes
`this.onQuit_()` without awaiting it and immediately calls
`process.exit(0)`, the emitted trace is exactly
`[teardownStarted, processExit]` — `teardownCompleted` (everything after
`onQuit_`'s first `await`) is discarded — whereas the spec-modelled
awaited trace completes the teardown before the exit. -/
theorem quit_exits_without_awaiting_teardown :
    onQuitTrace = [QAct.teardownStarted, QAct.processExit] ∧
    onQuitSpecTrace
      = [QAct.teardownStarted, QAct.teardownCompleted, QAct.processExit] ∧
    ∀ r : UCIInitResult, protocolResponses r UCIEngineCommand.Quit = [] :=
  ⟨rfl, rfl, fun _ => rfl⟩

/-! ### C8 — `uci` dispatch response sequence -/

/-- `String.append` is associative. -/
theorem strAppend_assoc (a b c : String) : (a ++ b) ++ c = a ++ (b ++ c) := by
  cases a
  cases b
  cases c
  show String.mk _ = String.mk _
  rw [List.append_assoc]

/-- C8: for every initialize result, dispatching Uci yields exactly the
responses `Id name`, `Id author`, one `Option` per advertised option in the
advertised order, then `UciOk`; serialized, these are the lines
`id name <name>`, `id author <author>`, the option lines, and `uciok`, in
that order. -/
theorem uci_dispatch_response_lines (name author : String) (opts : List UCIOption) :
    protocolResponses ⟨name, author, opts⟩ UCIEngineCommand.UCI =
      UCIGUICommand.Id (UCIId.Name name) :: UCIGUICommand.Id (UCIId.Author author)
        :: (opts.map UCIGUICommand.Option ++ [UCIGUICommand.UCIOk]) ∧
    (protocolResponses ⟨name, author, opts⟩ UCIEngineCommand.UCI).map serializeGUICmd =
      ("id name " ++ name) :: ("id author " ++ author)
        :: (opts.map (fun o => serializeGUICmd (UCIGUICommand.Option o)) ++ ["uciok"]) := by
  refine ⟨rfl, ?_⟩
  have hn : serializeGUICmd (UCIGUICommand.Id (UCIId.Name name)) = "id name " ++ name := by
    have h : serializeGUICmd (UCIGUICommand.Id (UCIId.Name name))
        = "id " ++ ("name " ++ name) := rfl
    rw [h, ← strAppend_assoc]
    rfl
  have ha : serializeGUICmd (UCIGUICommand.Id (UCIId.Author author))
      = "id author " ++ author := by
    have h : serializeGUICmd (UCIGUICommand.Id (UCIId.Author author))
        = "id " ++ ("author " ++ author) := rfl
    rw [h, ← strAppend_assoc]
    rfl
  simp [protocolResponses, hn, ha, List.map_map,
    show serializeGUICmd UCIGUICommand.UCIOk = "uciok" from rfl, Function.comp]

/-! ### C9 — numeric go parameters -/

/-- C9: `"go depth 12 movetime 500"` parses to
`Go [Depth 12, MoveTime 500]`, the two parameters in that order. -/
theorem go_depth_movetime_parse :
    parseUCIEngineCmd ("go depth 12 movetime 500".toList) =
      .ok (UCIEngineCommand.Go [UCIGoParameter.Depth 12, UCIGoParameter.MoveTime 500]) :=
  rfl

end NodeUCI

